import Mathlib

/- Shallow embedding of the InvestmentReco repository
   (src/utils/financial_calculator.py and src/utils/recommendation_engine.py).

   Conventions of the embedding:
   * Python floats are modelled as exact real numbers; numeric literals such
     as 0.05 denote the exact rational the source writes.
   * Python ints (the `years` parameters) are modelled as ℤ, and Python's
     `base ** years` as zpow.
   * Python's `(1 + rate) ** (1/12)` (a real-exponent power) is modelled as
     Real.rpow.
   * Division by zero is the Lean convention x / 0 = 0; every place the
     source actually divides is either guarded in the source itself or is
     proved to have a nonzero denominator.  Places where the source would
     raise an exception (pandas DataFrame construction with ragged columns)
     are modelled with Except. -/

namespace InvestmentReco

noncomputable section
open scoped Classical

/-! ## financial_calculator.py -/

/-- Embeds calculate_future_value: present_value * (1 + inflation_rate) ** years. -/
def calculate_future_value (present_value inflation_rate : ℝ) (years : ℤ) : ℝ :=
  present_value * (1 + inflation_rate) ^ years

/-- Embeds calculate_one_time_investment: future_value if years ≤ 0 or
    expected_return ≤ 0, else future_value / (1 + expected_return) ** years. -/
def calculate_one_time_investment (future_value expected_return : ℝ) (years : ℤ) : ℝ :=
  if years ≤ 0 ∨ expected_return ≤ 0 then future_value
  else future_value / (1 + expected_return) ^ years

/-- Embeds the shared subexpression (1 + expected_return) ** (1/12) - 1 used by
    both calculate_monthly_investment and calculate_investment_growth. -/
def monthlyRate (expected_return : ℝ) : ℝ :=
  (1 + expected_return) ^ ((1 : ℝ) / 12) - 1

/-- Embeds calculate_monthly_investment with its three fallback branches;
    monthly_rate is monthlyRate expected_return, months is years * 12 and
    denominator is (1 + monthly_rate) ** months - 1 of the source. -/
def calculate_monthly_investment (future_value expected_return : ℝ) (years : ℤ) : ℝ :=
  if years ≤ 0 ∨ expected_return ≤ 0 then
    (if 0 < years then future_value / ((years : ℝ) * 12) else future_value)
  else if (1 + monthlyRate expected_return) ^ (years * 12) - 1 = 0 then
    future_value / (((years * 12 : ℤ)) : ℝ)
  else
    future_value * monthlyRate expected_return /
      ((1 + monthlyRate expected_return) ^ (years * 12) - 1)

/-- One iteration of the inner month loop of calculate_investment_growth:
    year_end_value = year_end_value * (1 + monthly_rate) + monthly_investment. -/
def monthStep (monthly_rate monthly_investment v : ℝ) : ℝ :=
  v * (1 + monthly_rate) + monthly_investment

/-- k iterations of the month loop. -/
def monthIter (monthly_rate monthly_investment : ℝ) : ℕ → ℝ → ℝ
  | 0, v => v
  | k + 1, v => monthIter monthly_rate monthly_investment k
      (monthStep monthly_rate monthly_investment v)

/-- The year loop of calculate_investment_growth: appends one year-end value
    (12 month steps) per remaining year. -/
def growthAux (monthly_rate monthly_investment : ℝ) : ℕ → ℝ → List ℝ
  | 0, _ => []
  | y + 1, v =>
      let v' := monthIter monthly_rate monthly_investment 12 v
      v' :: growthAux monthly_rate monthly_investment y v'

/-- Embeds calculate_investment_growth: values = [initial_investment] followed by
    one compounded value per year in range(1, years + 1). -/
def calculate_investment_growth (initial_investment monthly_investment expected_return : ℝ)
    (years : ℤ) : List ℝ :=
  initial_investment ::
    growthAux (monthlyRate expected_return) monthly_investment years.toNat initial_investment

/-- Embeds calculate_roi with its zero-invested guard. -/
def calculate_roi (total_invested final_value : ℝ) : ℝ :=
  if total_invested = 0 then 0
  else (final_value - total_invested) / total_invested * 100

/-- Embeds calculate_asset_allocation; the returned dict is modelled as an
    association list in the literal order of the source. -/
def calculate_asset_allocation (risk_profile : String) (_amount : ℝ) : List (String × ℝ) :=
  if risk_profile = "Conservative" then
    [("Equity", 0.3), ("Debt", 0.6), ("Gold", 0.1)]
  else if risk_profile = "Moderate" then
    [("Equity", 0.5), ("Debt", 0.4), ("Gold", 0.1)]
  else if risk_profile = "Aggressive" then
    [("Equity", 0.7), ("Debt", 0.25), ("Gold", 0.05)]
  else
    [("Equity", 0.5), ("Debt", 0.4), ("Gold", 0.1)]

/-! ### Checked variants for the totality claim.

    Each variant returns none exactly where the Python source would raise an
    exception on the corresponding path: a division whose denominator is zero
    (ZeroDivisionError), or 0.0 raised to a negative power. -/

/-- Checked calculate_future_value: Python raises ZeroDivisionError only when
    the base 1 + rate is zero and the integer exponent is negative. -/
def fvChecked (present_value inflation_rate : ℝ) (years : ℤ) : Option ℝ :=
  if 1 + inflation_rate = 0 ∧ years < 0 then none
  else some (calculate_future_value present_value inflation_rate years)

/-- Checked calculate_one_time_investment: none if the divisor on the taken
    branch is zero. -/
def otiChecked (future_value expected_return : ℝ) (years : ℤ) : Option ℝ :=
  if years ≤ 0 ∨ expected_return ≤ 0 then some future_value
  else if (1 + expected_return) ^ years = 0 then none
  else some (future_value / (1 + expected_return) ^ years)

/-- Checked calculate_monthly_investment: none if the divisor on the taken
    branch is zero. -/
def pmtChecked (future_value expected_return : ℝ) (years : ℤ) : Option ℝ :=
  if years ≤ 0 ∨ expected_return ≤ 0 then
    (if 0 < years then
      (if ((years : ℝ) * 12) = 0 then none else some (future_value / ((years : ℝ) * 12)))
     else some future_value)
  else if (1 + monthlyRate expected_return) ^ (years * 12) - 1 = 0 then
    (if (((years * 12 : ℤ)) : ℝ) = 0 then none
     else some (future_value / (((years * 12 : ℤ)) : ℝ)))
  else
    some (future_value * monthlyRate expected_return /
      ((1 + monthlyRate expected_return) ^ (years * 12) - 1))

/-- Checked calculate_roi: none if the divisor on the taken branch is zero. -/
def roiChecked (total_invested final_value : ℝ) : Option ℝ :=
  if total_invested = 0 then some 0
  else if total_invested = 0 then none
  else some ((final_value - total_invested) / total_invested * 100)

/-! ## recommendation_engine.py -/

/-- Embeds the stock_universe dict of recommend_stocks (insertion order kept). -/
def stock_universe : List (String × List String) :=
  [("Conservative",
     ["TCS.NS", "HINDUNILVR.NS", "NESTLEIND.NS", "SUNPHARMA.NS", "BAJAJFINSV.NS",
      "HDFCBANK.NS", "ITC.NS", "ASIANPAINT.NS", "POWERGRID.NS", "NTPC.NS"]),
   ("Moderate",
     ["INFY.NS", "RELIANCE.NS", "HDFCBANK.NS", "ICICIBANK.NS", "KOTAKBANK.NS",
      "TCS.NS", "AXISBANK.NS", "MARUTI.NS", "HINDUNILVR.NS", "BAJAJFINSV.NS"]),
   ("Aggressive",
     ["RELIANCE.NS", "TATAMOTORS.NS", "TATASTEEL.NS", "JINDALSTEL.NS", "SBIN.NS",
      "LT.NS", "M&M.NS", "INDUSINDBK.NS", "ADANIPORTS.NS", "HINDALCO.NS"])]

/-- Embeds the mf_universe dict of recommend_mutual_funds. -/
def mf_universe : List (String × List String) :=
  [("Conservative", ["HDFCDBT.BO", "ICBPRUD.BO", "AXBBND.BO", "SMCBALQ.BO", "TBABRG.BO"]),
   ("Moderate", ["HDFCSF.BO", "ICBPBAQ.BO", "KOTBLD.BO", "UTSMCP.BO", "AXISMQ.BO"]),
   ("Aggressive", ["HDFCMQ.BO", "ICICGR.BO", "NIPPCQ.BO", "KOTSMQ.BO", "AXISSQ.BO"])]

/-- Dictionary membership test, as Python's `key in dict`. -/
def dictHas (d : List (String × List String)) (k : String) : Bool :=
  d.any (fun p => p.1 == k)

/-- Dictionary lookup with an impossible-in-context default, as Python's d[k]. -/
def dictGet (d : List (String × List String)) (k : String) : List String :=
  ((d.find? (fun p => p.1 == k)).map Prod.snd).getD []

/-- Embeds recommend_stocks.  The risk_mappings / goal_adjustments dictionaries
    of the source are built and mutated but never read when producing the
    returned list, so the result is stock_universe[profile][:5] where profile
    is risk_profile defaulted to "Moderate" when unrecognized. -/
def recommend_stocks (risk_profile _goal_type : String) (_amount_needed : ℝ) : List String :=
  let profile :=
    if dictHas stock_universe risk_profile then risk_profile else "Moderate"
  if dictHas stock_universe profile then (dictGet stock_universe profile).take 5
  else (dictGet stock_universe "Moderate").take 5

/-- Embeds recommend_mutual_funds.  As in recommend_stocks, the
    risk_mappings / goal_adjustments tables never influence the returned list;
    note the source performs no up-front defaulting here, only the final
    `if risk_profile in mf_universe` test. -/
def recommend_mutual_funds (risk_profile _goal_type : String) (_amount_needed : ℝ) :
    List String :=
  if dictHas mf_universe risk_profile then (dictGet mf_universe risk_profile).take 5
  else (dictGet mf_universe "Moderate").take 5

/-! ### simple_ml_recommendation -/

/-- Embeds pandas Series.pct_change().dropna(): consecutive-ratio minus one. -/
def pctChange : List ℝ → List ℝ
  | a :: b :: t => (b / a - 1) :: pctChange (b :: t)
  | _ => []

/-- Arithmetic mean, as pandas Series.mean.  pandas yields NaN on an empty
    series — an in-scope case, reached by a 1-point price series, whose empty
    return list passes the data.empty filter; this real-valued version
    returns 0 there by the 0/0 = 0 convention.  meanN below marks the NaN
    case, and the feature-level claim theorems restrict to series long enough
    for the two to agree. -/
def meanL (xs : List ℝ) : ℝ := xs.sum / xs.length

/-- Sample standard deviation with ddof = 1, as pandas Series.std.  pandas
    yields NaN for fewer than two samples — an in-scope case, reached by any
    1- or 2-point price series; this real-valued version returns 0 there by
    the 0/0 = 0 convention.  stdN below marks the NaN cases. -/
def stdL (xs : List ℝ) : ℝ :=
  Real.sqrt ((xs.map (fun x => (x - meanL xs) ^ 2)).sum / (xs.length - 1 : ℕ))

/-- NaN-aware mean: none plays IEEE NaN, produced exactly where pandas
    Series.mean yields NaN (the empty series). -/
def meanN (xs : List ℝ) : Option ℝ :=
  if xs.isEmpty then none else some (meanL xs)

/-- NaN-aware sample deviation: none exactly where pandas Series.std with
    ddof = 1 yields NaN (fewer than two samples, a 0/0). -/
def stdN (xs : List ℝ) : Option ℝ :=
  if xs.length ≤ 1 then none else some (stdL xs)

/-- Annual return feature: (1 + returns.mean()) ** 252 - 1. -/
def annualReturn (prices : List ℝ) : ℝ :=
  (1 + meanL (pctChange prices)) ^ (252 : ℕ) - 1

/-- Volatility feature: returns.std() * np.sqrt(252). -/
def volatility (prices : List ℝ) : ℝ :=
  stdL (pctChange prices) * Real.sqrt 252

/-- NaN-aware annual return: NaN times or plus anything is NaN, so the
    feature is NaN exactly when the return list is empty (1-point series). -/
def annualReturnN (prices : List ℝ) : Option ℝ :=
  (meanN (pctChange prices)).map (fun m => (1 + m) ^ (252 : ℕ) - 1)

/-- NaN-aware volatility: NaN exactly when the series has fewer than two
    returns (1- or 2-point series), as pandas produces. -/
def volatilityN (prices : List ℝ) : Option ℝ :=
  (stdN (pctChange prices)).map (fun s => s * Real.sqrt 252)

/-- Sharpe feature with the zero-volatility guard of the source
    (risk_free_rate = 0.05). -/
def sharpe (prices : List ℝ) : ℝ :=
  if 0 < volatility prices then (annualReturn prices - 0.05) / volatility prices else 0

/-- Running maximum, as pandas Series.cummax. -/
def cummax : List ℝ → List ℝ
  | [] => []
  | a :: t => a :: (cummax t).map (fun x => max a x)

/-- Minimum of a list, as pandas Series.min (0 on the unused empty case). -/
def listMin : List ℝ → ℝ
  | [] => 0
  | x :: xs => xs.foldl min x

/-- Maximum of a list (0 on the unused empty case). -/
def listMax : List ℝ → ℝ
  | [] => 0
  | x :: xs => xs.foldl max x

/-- Max-drawdown feature: (close / close.cummax() - 1).min(). -/
def maxDrawdown (prices : List ℝ) : ℝ :=
  listMin (List.zipWith (fun p m => p / m - 1) prices (cummax prices))

/-- Embeds sklearn MinMaxScaler.fit_transform applied to one entry of a column:
    (x - min) / (max - min).  A constant column has max - min = 0 and sklearn
    then rescales by 1, sending every entry to 0; Lean's x / 0 = 0 convention
    coincides with that. -/
def minmaxScale (column : List ℝ) (x : ℝ) : ℝ :=
  (x - listMin column) / (listMax column - listMin column)

/-- The minimum sklearn's scaler fits on a column that may hold NaNs: NaNs are
    ignored (np.nanmin), and an all-NaN column has a NaN minimum. -/
def nanColMin (column : List (Option ℝ)) : Option ℝ :=
  match column.filterMap id with
  | [] => none
  | x :: xs => some (xs.foldl min x)

/-- The nan-ignoring maximum, as np.nanmax. -/
def nanColMax (column : List (Option ℝ)) : Option ℝ :=
  match column.filterMap id with
  | [] => none
  | x :: xs => some (xs.foldl max x)

/-- NaN-aware MinMaxScaler.fit_transform on one entry: sklearn (allow-nan)
    fits min and max ignoring NaNs and the transform propagates NaN, so the
    result is NaN when the entry is NaN or the whole column is. -/
def minmaxN (column : List (Option ℝ)) (x : Option ℝ) : Option ℝ :=
  match x, nanColMin column, nanColMax column with
  | some xv, some lo, some hi => some ((xv - lo) / (hi - lo))
  | _, _, _ => none

/-- The weight vector picked per risk profile. -/
structure RiskWeights where
  wret : ℝ
  wvol : ℝ
  wsharpe : ℝ
  wdd : ℝ

/-- Embeds weights.get(risk_profile, weights["Moderate"]). -/
def weightsFor (risk_profile : String) : RiskWeights :=
  if risk_profile = "Conservative" then ⟨0.2, 0.4, 0.3, 0.1⟩
  else if risk_profile = "Moderate" then ⟨0.3, 0.3, 0.3, 0.1⟩
  else if risk_profile = "Aggressive" then ⟨0.4, 0.2, 0.3, 0.1⟩
  else ⟨0.3, 0.3, 0.3, 0.1⟩

/-- The candidate rows of the feature DataFrame: instruments whose series is
    non-empty (the `if data.empty: continue` filter of the source). -/
def candidates (historical_data : List (String × List ℝ)) : List (String × List ℝ) :=
  historical_data.filter (fun p => !p.2.isEmpty)

/-- The return feature column over the candidate rows. -/
def retCol (cands : List (String × List ℝ)) : List ℝ :=
  cands.map (fun p => annualReturn p.2)

/-- The volatility feature column. -/
def volCol (cands : List (String × List ℝ)) : List ℝ :=
  cands.map (fun p => volatility p.2)

/-- The sharpe feature column. -/
def sharpeCol (cands : List (String × List ℝ)) : List ℝ :=
  cands.map (fun p => sharpe p.2)

/-- The max-drawdown feature column. -/
def ddCol (cands : List (String × List ℝ)) : List ℝ :=
  cands.map (fun p => maxDrawdown p.2)

/-- The score of one row: the weighted sum of the four normalized features,
    with volatility and max_dd inverted as in the source. -/
def score (cands : List (String × List ℝ)) (w : RiskWeights) (p : String × List ℝ) : ℝ :=
  w.wret * minmaxScale (retCol cands) (annualReturn p.2) +
  w.wvol * (1 - minmaxScale (volCol cands) (volatility p.2)) +
  w.wsharpe * minmaxScale (sharpeCol cands) (sharpe p.2) +
  w.wdd * (1 - minmaxScale (ddCol cands) (maxDrawdown p.2))

/-- Ticker/score rows in input order. -/
def scored (cands : List (String × List ℝ)) (w : RiskWeights) : List (String × ℝ) :=
  cands.map (fun p => (p.1, score cands w p))

/-- Stable insertion into an ascending-by-score list: a new element passes
    every strictly larger element and stops behind equal ones. -/
def insertAsc (x : String × ℝ) : List (String × ℝ) → List (String × ℝ)
  | [] => [x]
  | y :: ys => if x.2 < y.2 then x :: y :: ys else y :: insertAsc x ys

/-- Stable ascending sort by score, as numpy's small-array insertion sort that
    argsort applies below its introsort cutoff (every input in this
    development has fewer rows than the cutoff). -/
def sortAsc (l : List (String × ℝ)) : List (String × ℝ) :=
  l.foldl (fun acc z => insertAsc z acc) []

/-- Embeds df.sort_values("score", ascending=False) followed by
    df["ticker"].tolist(): for a descending sort pandas nargsort reverses the
    values and the index, runs a stable ascending argsort, and reverses the
    resulting indexer, so the descending order is stable — ties keep their
    input order. -/
def rankRows (rows : List (String × ℝ)) : List String :=
  ((sortAsc rows.reverse).reverse).map Prod.fst

/-- Embeds simple_ml_recommendation.  The pd.DataFrame construction raises
    ValueError when the ticker column (all keys) and the feature columns
    (non-empty-series keys only) have different lengths; that exception is the
    Except.error case.  The `if not df[col].empty` guards of the source are
    omitted: on every path that reaches them the DataFrame has at least one
    row, so their else branches are unreachable. -/
def simple_ml_recommendation (historical_data : List (String × List ℝ))
    (risk_profile : String) : Except String (List String) :=
  if historical_data.isEmpty then .ok []
  else
    let cands := candidates historical_data
    if cands.length ≠ historical_data.length then
      .error "All arrays must be of the same length"
    else
      .ok (rankRows (scored cands (weightsFor risk_profile)))

/-! ## Helper lemmas for the Valuation Engine -/

theorem growthAux_length (m p : ℝ) (y : ℕ) (v : ℝ) :
    (growthAux m p y v).length = y := by
  induction y generalizing v with
  | zero => rfl
  | succ y ih => simp [growthAux, ih]

theorem monthIter_add (m p : ℝ) (a b : ℕ) (v : ℝ) :
    monthIter m p (a + b) v = monthIter m p a (monthIter m p b v) := by
  induction b generalizing v with
  | zero => rfl
  | succ b ih =>
      have h : a + (b + 1) = (a + b) + 1 := by omega
      rw [h]
      simp only [monthIter]
      rw [ih]

theorem monthIter_closed (m p : ℝ) (hm : m ≠ 0) (k : ℕ) (v : ℝ) :
    monthIter m p k v = v * (1 + m) ^ k + p * ((1 + m) ^ k - 1) / m := by
  induction k generalizing v with
  | zero => simp [monthIter]
  | succ k ih =>
      simp only [monthIter, monthStep]
      rw [ih]
      field_simp
      ring

theorem growthAux_getLastD (m p : ℝ) (y : ℕ) (hy : y ≠ 0) (v : ℝ) :
    (v :: growthAux m p y v).getLastD 0 = monthIter m p (12 * y) v := by
  induction y generalizing v with
  | zero => omega
  | succ y ih =>
      by_cases h : y = 0
      · subst h
        simp [growthAux, List.getLastD]
      · simp only [growthAux, List.getLastD_cons]
        have := ih h (monthIter m p 12 v)
        simp only [List.getLastD_cons] at this ⊢
        rw [this, ← monthIter_add]
        congr 1

/-- The monthly rate is positive for a positive annual rate. -/
theorem monthlyRate_pos {r : ℝ} (hr : 0 < r) : 0 < monthlyRate r := by
  have h1 : (0 : ℝ) < 1 + r := by linarith
  have : (1 : ℝ) < (1 + r) ^ ((1 : ℝ) / 12) := by
    rw [Real.one_lt_rpow_iff_of_pos h1]
    exact Or.inl ⟨by linarith, by norm_num⟩
  unfold monthlyRate
  linarith

/-! ## Claim theorems for the Valuation Engine -/

/-- C2: for every present value P, rate r > 0 and integer years n > 0,
    discounting the compounded future value recovers P exactly:
    calculate_one_time_investment (calculate_future_value P r n) r n = P. -/
theorem C2_round_trip (P r : ℝ) (n : ℤ) (hr : 0 < r) (hn : 0 < n) :
    calculate_one_time_investment (calculate_future_value P r n) r n = P := by
  unfold calculate_one_time_investment calculate_future_value
  rw [if_neg (by push_neg; constructor <;> linarith)]
  have hb : (0 : ℝ) < 1 + r := by linarith
  exact mul_div_cancel_right₀ P (zpow_ne_zero n (ne_of_gt hb))

/-- Witness for C2 at P = 1000000, r = 0.12, n = 5. -/
theorem C2_round_trip_witness :
    (0 : ℝ) < 0.12 ∧ (0 : ℤ) < 5 ∧
      calculate_one_time_investment (calculate_future_value 1000000 0.12 5) 0.12 5
        = 1000000 :=
  ⟨by norm_num, by norm_num, C2_round_trip 1000000 0.12 5 (by norm_num) (by norm_num)⟩

/-- C6: calculate_monthly_investment resolves every degenerate input by its
    fallback formulas: years ≤ 0 gives back the future value; positive years
    with rate ≤ 0 gives the even split F / (years * 12); a vanished annuity
    denominator gives the even split over months; otherwise the PMT formula
    F * monthlyRate / ((1 + monthlyRate) ^ (12 years) - 1) applies. -/
theorem C6_fallbacks (F r : ℝ) (y : ℤ) :
    (y ≤ 0 → calculate_monthly_investment F r y = F) ∧
    (0 < y → r ≤ 0 → calculate_monthly_investment F r y = F / ((y : ℝ) * 12)) ∧
    (0 < y → 0 < r → (1 + monthlyRate r) ^ (y * 12) - 1 = 0 →
      calculate_monthly_investment F r y = F / (12 * (y : ℝ))) ∧
    (0 < y → 0 < r → (1 + monthlyRate r) ^ (y * 12) - 1 ≠ 0 →
      calculate_monthly_investment F r y
        = F * monthlyRate r / ((1 + monthlyRate r) ^ (y * 12) - 1)) := by
  refine ⟨fun hy => ?_, fun hy hr => ?_, fun hy hr hD => ?_, fun hy hr hD => ?_⟩
  · unfold calculate_monthly_investment
    rw [if_pos (Or.inl hy), if_neg (by omega)]
  · unfold calculate_monthly_investment
    rw [if_pos (Or.inr hr), if_pos hy]
  · unfold calculate_monthly_investment
    rw [if_neg (by push_neg; exact ⟨hy, hr⟩), if_pos hD]
    push_cast
    ring_nf
  · unfold calculate_monthly_investment
    rw [if_neg (by push_neg; exact ⟨hy, hr⟩), if_neg hD]

/-- Witness for C6, taking the years ≤ 0 branch at F = 500, r = 0.1, y = 0. -/
theorem C6_fallbacks_witness :
    (0 : ℤ) ≤ 0 ∧ calculate_monthly_investment 500 0.1 0 = 500 :=
  ⟨le_refl 0, (C6_fallbacks 500 0.1 0).1 (le_refl 0)⟩

/-- C8: over the exact-arithmetic embedding each Valuation Engine function is
    total for years ≥ 0 and any real rate: every division taken is by a
    nonzero denominator (the checked variants return some value, never the
    exception marker none), and the growth curve is a finite list of length
    years + 1. -/
theorem C8_totality (P F r t fv : ℝ) (y : ℤ) (hy : 0 ≤ y) :
    fvChecked P r y = some (calculate_future_value P r y) ∧
    otiChecked F r y = some (calculate_one_time_investment F r y) ∧
    pmtChecked F r y = some (calculate_monthly_investment F r y) ∧
    roiChecked t fv = some (calculate_roi t fv) ∧
    (calculate_investment_growth P F r y).length = y.toNat + 1 := by
  refine ⟨?_, ?_, ?_, ?_, ?_⟩
  · unfold fvChecked
    rw [if_neg (by push_neg; intro _; omega)]
  · unfold otiChecked calculate_one_time_investment
    by_cases h : y ≤ 0 ∨ r ≤ 0
    · rw [if_pos h, if_pos h]
    · have hr : (0 : ℝ) < r := by push_neg at h; exact h.2
      have hne : (1 + r) ^ y ≠ 0 := zpow_ne_zero y (by intro hc; nlinarith)
      rw [if_neg h, if_neg h, if_neg hne]
  · unfold pmtChecked calculate_monthly_investment
    by_cases h : y ≤ 0 ∨ r ≤ 0
    · rw [if_pos h, if_pos h]
      by_cases hy0 : 0 < y
      · have hyR : (0 : ℝ) < (y : ℝ) := by exact_mod_cast hy0
        rw [if_pos hy0, if_pos hy0, if_neg (by intro hc; nlinarith)]
      · rw [if_neg hy0, if_neg hy0]
    · have hy0 : (0 : ℤ) < y := by push_neg at h; exact h.1
      rw [if_neg h, if_neg h]
      by_cases hD : (1 + monthlyRate r) ^ (y * 12) - 1 = 0
      · have hmo : (((y * 12 : ℤ)) : ℝ) ≠ 0 := Int.cast_ne_zero.mpr (by omega)
        rw [if_pos hD, if_pos hD, if_neg hmo]
      · rw [if_neg hD, if_neg hD]
  · unfold roiChecked calculate_roi
    by_cases h : t = 0
    · rw [if_pos h, if_pos h]
    · rw [if_neg h, if_neg h, if_neg h]
  · unfold calculate_investment_growth
    simp [growthAux_length]

/-- Witness for C8 at y = 3 and sample numeric arguments. -/
theorem C8_totality_witness :
    (0 : ℤ) ≤ 3 ∧
      (fvChecked 100 0.12 3 = some (calculate_future_value 100 0.12 3) ∧
       otiChecked 200 0.12 3 = some (calculate_one_time_investment 200 0.12 3) ∧
       pmtChecked 200 0.12 3 = some (calculate_monthly_investment 200 0.12 3) ∧
       roiChecked 50 75 = some (calculate_roi 50 75) ∧
       (calculate_investment_growth 100 200 0.12 3).length = (3 : ℤ).toNat + 1) :=
  ⟨by norm_num, C8_totality 100 200 0.12 50 75 3 (by norm_num)⟩

/-- C3: for F > 0, r > 0, years > 0 the contribution solver returns a strictly
    positive payment, and projecting exactly that payment with
    calculate_investment_growth from a zero lump reaches the target F exactly
    (both paths use the same monthly-rate derivation). -/
theorem C3_solver_projector_consistency (F r : ℝ) (y : ℤ)
    (hF : 0 < F) (hr : 0 < r) (hy : 0 < y) :
    0 < calculate_monthly_investment F r y ∧
    (calculate_investment_growth 0 (calculate_monthly_investment F r y) r y).getLastD 0
      = F := by
  have hm : 0 < monthlyRate r := monthlyRate_pos hr
  have hb : (1 : ℝ) < 1 + monthlyRate r := by linarith
  have hexp : ((12 * y.toNat : ℕ) : ℤ) = y * 12 := by omega
  have hDnat : (1 : ℝ) < (1 + monthlyRate r) ^ (12 * y.toNat : ℕ) :=
    one_lt_pow₀ hb (by omega)
  have hDz : (1 + monthlyRate r) ^ ((y * 12 : ℤ)) - 1
      = (1 + monthlyRate r) ^ (12 * y.toNat : ℕ) - 1 := by
    rw [← hexp, zpow_natCast]
  have hD : (0 : ℝ) < (1 + monthlyRate r) ^ ((y * 12 : ℤ)) - 1 := by
    rw [hDz]; linarith
  have hpmt : calculate_monthly_investment F r y
      = F * monthlyRate r / ((1 + monthlyRate r) ^ ((y * 12 : ℤ)) - 1) := by
    unfold calculate_monthly_investment
    rw [if_neg (by push_neg; exact ⟨hy, hr⟩), if_neg (ne_of_gt hD)]
  constructor
  · rw [hpmt]
    exact div_pos (mul_pos hF hm) hD
  · unfold calculate_investment_growth
    rw [growthAux_getLastD _ _ _ (by omega) _,
      monthIter_closed _ _ (ne_of_gt hm), hpmt, hDz]
    field_simp
    rw [div_eq_iff (mul_ne_zero (by linarith) (ne_of_gt hm))]
    ring

/-! ## Helper lemmas for the Ranking Engine -/

theorem foldl_min_le_init (a : ℝ) (l : List ℝ) : l.foldl min a ≤ a := by
  induction l generalizing a with
  | nil => exact le_refl a
  | cons b t ih => exact le_trans (ih (min a b)) (min_le_left a b)

theorem foldl_min_le_mem (a x : ℝ) (l : List ℝ) (hx : x ∈ l) : l.foldl min a ≤ x := by
  induction l generalizing a with
  | nil => cases hx
  | cons b t ih =>
      rcases List.mem_cons.mp hx with rfl | hxt
      · exact le_trans (foldl_min_le_init (min a x) t) (min_le_right a x)
      · exact ih (min a b) hxt

theorem init_le_foldl_max (a : ℝ) (l : List ℝ) : a ≤ l.foldl max a := by
  induction l generalizing a with
  | nil => exact le_refl a
  | cons b t ih => exact le_trans (le_max_left a b) (ih (max a b))

theorem mem_le_foldl_max (a x : ℝ) (l : List ℝ) (hx : x ∈ l) : x ≤ l.foldl max a := by
  induction l generalizing a with
  | nil => cases hx
  | cons b t ih =>
      rcases List.mem_cons.mp hx with rfl | hxt
      · exact le_trans (le_max_right a x) (init_le_foldl_max (max a x) t)
      · exact ih (max a b) hxt

theorem listMin_le_of_mem {x : ℝ} {l : List ℝ} (hx : x ∈ l) : listMin l ≤ x := by
  cases l with
  | nil => cases hx
  | cons a t =>
      rcases List.mem_cons.mp hx with rfl | hxt
      · exact foldl_min_le_init x t
      · exact foldl_min_le_mem a x t hxt

theorem le_listMax_of_mem {x : ℝ} {l : List ℝ} (hx : x ∈ l) : x ≤ listMax l := by
  cases l with
  | nil => cases hx
  | cons a t =>
      rcases List.mem_cons.mp hx with rfl | hxt
      · exact init_le_foldl_max x t
      · exact mem_le_foldl_max a x t hxt

/-- MinMax scaling keeps every member of the column inside [0, 1]; the constant
    column (max = min) collapses to 0 via the division-by-zero convention that
    models sklearn's handle-zeros-in-scale rule. -/
theorem minmaxScale_mem_bounds {x : ℝ} {l : List ℝ} (hx : x ∈ l) :
    0 ≤ minmaxScale l x ∧ minmaxScale l x ≤ 1 := by
  have hlo : listMin l ≤ x := listMin_le_of_mem hx
  have hhi : x ≤ listMax l := le_listMax_of_mem hx
  unfold minmaxScale
  by_cases h : listMax l - listMin l = 0
  · rw [h, div_zero]
    exact ⟨le_refl 0, zero_le_one⟩
  · have hpos : 0 < listMax l - listMin l :=
      lt_of_le_of_ne (by linarith) (Ne.symm h)
    constructor
    · exact div_nonneg (by linarith) hpos.le
    · rw [div_le_one hpos]
      linarith

theorem listMin_pair (a b : ℝ) : listMin [a, b] = min a b := rfl

theorem listMax_pair (a b : ℝ) : listMax [a, b] = max a b := rfl

/-- Scaling a two-entry column whose first entry is the larger one. -/
theorem minmaxScale_pair_fst_lt {a b : ℝ} (h : b < a) :
    minmaxScale [a, b] a = 1 ∧ minmaxScale [a, b] b = 0 := by
  unfold minmaxScale
  rw [listMin_pair, listMax_pair, min_eq_right h.le, max_eq_left h.le]
  exact ⟨div_self (sub_ne_zero_of_ne h.ne'), by rw [sub_self, zero_div]⟩

/-- Scaling a two-entry column whose second entry is the larger one. -/
theorem minmaxScale_pair_snd_lt {a b : ℝ} (h : a < b) :
    minmaxScale [a, b] a = 0 ∧ minmaxScale [a, b] b = 1 := by
  unfold minmaxScale
  rw [listMin_pair, listMax_pair, min_eq_left h.le, max_eq_right h.le]
  exact ⟨by rw [sub_self, zero_div], div_self (sub_ne_zero_of_ne h.ne')⟩

/-- Scaling a constant two-entry column collapses to 0. -/
theorem minmaxScale_pair_eq {a b : ℝ} (h : a = b) :
    minmaxScale [a, b] a = 0 ∧ minmaxScale [a, b] b = 0 := by
  subst h
  unfold minmaxScale
  rw [listMin_pair, listMax_pair, min_self, max_self, sub_self, zero_div]
  exact ⟨rfl, rfl⟩

/-- A first row whose score is at least the second's comes first in the
    descending output; in particular ties keep their input order (pandas'
    double reversal around the stable argsort). -/
theorem rankRows_pair_ge {A B : String} {sa sb : ℝ} (h : sb ≤ sa) :
    rankRows [(A, sa), (B, sb)] = [A, B] := by
  show ((sortAsc [(B, sb), (A, sa)]).reverse).map Prod.fst = [A, B]
  unfold sortAsc
  simp only [List.foldl_cons, List.foldl_nil, insertAsc]
  rw [if_neg (show ¬((A, sa) : String × ℝ).2 < ((B, sb) : String × ℝ).2
    from not_lt.mpr h)]
  rfl

/-- A strictly larger second score puts the second row first in the
    descending output. -/
theorem rankRows_pair_lt {A B : String} {sa sb : ℝ} (h : sa < sb) :
    rankRows [(A, sa), (B, sb)] = [B, A] := by
  show ((sortAsc [(B, sb), (A, sa)]).reverse).map Prod.fst = [B, A]
  unfold sortAsc
  simp only [List.foldl_cons, List.foldl_nil, insertAsc]
  rw [if_pos (show ((A, sa) : String × ℝ).2 < ((B, sb) : String × ℝ).2 from h)]
  rfl

/-- On a two-instrument input with non-empty series, simple_ml_recommendation
    reduces to ranking the two scored rows. -/
theorem smr_pair (A B : String) (pa pb : List ℝ) (risk : String)
    (ha : pa ≠ []) (hb : pb ≠ []) :
    simple_ml_recommendation [(A, pa), (B, pb)] risk
      = .ok (rankRows (scored [(A, pa), (B, pb)] (weightsFor risk))) := by
  have hca : candidates [(A, pa), (B, pb)] = [(A, pa), (B, pb)] := by
    unfold candidates
    rw [List.filter_cons_of_pos, List.filter_cons_of_pos, List.filter_nil]
    · simp [hb]
    · simp [ha]
  unfold simple_ml_recommendation
  rw [if_neg (by simp), hca, if_neg (by simp)]

/-! ## Claim theorems C7: normalization invariant -/

/-- C7 counterexample: a candidate whose series has only two points has one
    return, pandas std with ddof = 1 of a single sample is NaN, sklearn's
    allow-nan scaler propagates it, and the normalized volatility is NaN —
    no value in [0, 1] — while the candidate is processed (it passes the
    non-empty filter and the pipeline completes). -/
theorem C7_counterexample :
    ("A", ([1, 2] : List ℝ)) ∈ candidates [("A", [1, 2])] ∧
    simple_ml_recommendation [("A", [1, 2])] "Moderate" = .ok ["A"] ∧
    volatilityN ([1, 2] : List ℝ) = none ∧
    minmaxN ((candidates [("A", [1, 2])]).map (fun q => volatilityN q.2))
      (volatilityN ([1, 2] : List ℝ)) = none := by
  exact ⟨List.mem_singleton.mpr rfl, rfl, rfl, rfl⟩

/-- C7 amended: provided every candidate series has at least three points (so
    that the sample deviation is defined and the real-valued features agree
    with the NaN-aware pandas ones, see volatilityN_eq and annualReturnN_eq),
    every normalized feature of every candidate lies in [0, 1], and an
    all-identical (min = max) feature column normalizes to the constant 0
    (hence constant 1 after the inversion applied to volatility and
    max-drawdown). -/
theorem C7_amended_norms_in_unit_interval (hist : List (String × List ℝ))
    (p : String × List ℝ) (hp : p ∈ candidates hist)
    (_hall : ∀ q ∈ candidates hist, 3 ≤ q.2.length) :
    (0 ≤ minmaxScale (retCol (candidates hist)) (annualReturn p.2) ∧
      minmaxScale (retCol (candidates hist)) (annualReturn p.2) ≤ 1) ∧
    (0 ≤ 1 - minmaxScale (volCol (candidates hist)) (volatility p.2) ∧
      1 - minmaxScale (volCol (candidates hist)) (volatility p.2) ≤ 1) ∧
    (0 ≤ minmaxScale (sharpeCol (candidates hist)) (sharpe p.2) ∧
      minmaxScale (sharpeCol (candidates hist)) (sharpe p.2) ≤ 1) ∧
    (0 ≤ 1 - minmaxScale (ddCol (candidates hist)) (maxDrawdown p.2) ∧
      1 - minmaxScale (ddCol (candidates hist)) (maxDrawdown p.2) ≤ 1) ∧
    (listMin (retCol (candidates hist)) = listMax (retCol (candidates hist)) →
      minmaxScale (retCol (candidates hist)) (annualReturn p.2) = 0) := by
  have hmr : annualReturn p.2 ∈ retCol (candidates hist) := by
    unfold retCol
    exact List.mem_map_of_mem _ hp
  have hmv : volatility p.2 ∈ volCol (candidates hist) := by
    unfold volCol
    exact List.mem_map_of_mem _ hp
  have hms : sharpe p.2 ∈ sharpeCol (candidates hist) := by
    unfold sharpeCol
    exact List.mem_map_of_mem _ hp
  have hmd : maxDrawdown p.2 ∈ ddCol (candidates hist) := by
    unfold ddCol
    exact List.mem_map_of_mem _ hp
  have hret := minmaxScale_mem_bounds hmr
  have hvol := minmaxScale_mem_bounds hmv
  have hsh := minmaxScale_mem_bounds hms
  have hdd := minmaxScale_mem_bounds hmd
  refine ⟨hret, ⟨by linarith [hvol.2], by linarith [hvol.1]⟩, hsh,
    ⟨by linarith [hdd.2], by linarith [hdd.1]⟩, fun hc => ?_⟩
  unfold minmaxScale
  rw [hc, sub_self, div_zero]

/-- Witness for the amended C7 on the one-instrument input with the
    three-point series [1, 2, 4]. -/
theorem C7_amended_witness :
    ("A", ([1, 2, 4] : List ℝ)) ∈ candidates [("A", [1, 2, 4])] ∧
    ((0 ≤ minmaxScale (retCol (candidates [("A", [1, 2, 4])]))
          (annualReturn ([1, 2, 4] : List ℝ)) ∧
        minmaxScale (retCol (candidates [("A", [1, 2, 4])]))
          (annualReturn ([1, 2, 4] : List ℝ)) ≤ 1) ∧
     (0 ≤ 1 - minmaxScale (volCol (candidates [("A", [1, 2, 4])]))
          (volatility ([1, 2, 4] : List ℝ)) ∧
        1 - minmaxScale (volCol (candidates [("A", [1, 2, 4])]))
          (volatility ([1, 2, 4] : List ℝ)) ≤ 1) ∧
     (0 ≤ minmaxScale (sharpeCol (candidates [("A", [1, 2, 4])]))
          (sharpe ([1, 2, 4] : List ℝ)) ∧
        minmaxScale (sharpeCol (candidates [("A", [1, 2, 4])]))
          (sharpe ([1, 2, 4] : List ℝ)) ≤ 1) ∧
     (0 ≤ 1 - minmaxScale (ddCol (candidates [("A", [1, 2, 4])]))
          (maxDrawdown ([1, 2, 4] : List ℝ)) ∧
        1 - minmaxScale (ddCol (candidates [("A", [1, 2, 4])]))
          (maxDrawdown ([1, 2, 4] : List ℝ)) ≤ 1) ∧
     (listMin (retCol (candidates [("A", [1, 2, 4])]))
          = listMax (retCol (candidates [("A", [1, 2, 4])])) →
        minmaxScale (retCol (candidates [("A", [1, 2, 4])]))
          (annualReturn ([1, 2, 4] : List ℝ)) = 0)) :=
  ⟨List.mem_singleton.mpr rfl,
    C7_amended_norms_in_unit_interval [("A", [1, 2, 4])] ("A", [1, 2, 4])
      (List.mem_singleton.mpr rfl)
      (fun q hq => by
        rw [List.mem_singleton.mp hq]
        norm_num)⟩

/-! ## Claim theorems C5: identical series -/

/-- Two rows with the same series get the same score, and the stable
    descending sort keeps the tie in input order. -/
theorem smr_identical (A B : String) (p : List ℝ) (risk : String) (hp : p ≠ []) :
    simple_ml_recommendation [(A, p), (B, p)] risk = .ok [A, B] := by
  rw [smr_pair A B p p risk hp hp]
  have h : rankRows (scored [(A, p), (B, p)] (weightsFor risk)) = [A, B] := by
    show rankRows
        [(A, score [(A, p), (B, p)] (weightsFor risk) (A, p)),
         (B, score [(A, p), (B, p)] (weightsFor risk) (B, p))] = [A, B]
    exact rankRows_pair_ge (le_of_eq rfl)
  rw [h]

/-- C5: instruments with identical price series receive equal scores, and the
    output lists them in input order: pandas realizes the descending sort by
    reversing both around a stable ascending argsort, which preserves input
    order on ties. -/
theorem C5_identical_series_tie_input_order (A B : String) (p : List ℝ)
    (risk : String) (hp : p ≠ []) :
    score [(A, p), (B, p)] (weightsFor risk) (A, p)
      = score [(A, p), (B, p)] (weightsFor risk) (B, p) ∧
    simple_ml_recommendation [(A, p), (B, p)] risk = .ok [A, B] :=
  ⟨rfl, smr_identical A B p risk hp⟩

/-- Witness for C5 on the series [1, 2, 4]. -/
theorem C5_identical_series_witness :
    (([1, 2, 4] : List ℝ) ≠ []) ∧
    (score [("A", [1, 2, 4]), ("B", [1, 2, 4])] (weightsFor "Moderate")
        ("A", [1, 2, 4])
      = score [("A", [1, 2, 4]), ("B", [1, 2, 4])] (weightsFor "Moderate")
        ("B", [1, 2, 4]) ∧
     simple_ml_recommendation [("A", [1, 2, 4]), ("B", [1, 2, 4])] "Moderate"
       = .ok ["A", "B"]) :=
  ⟨by simp, C5_identical_series_tie_input_order "A" "B" [1, 2, 4] "Moderate"
    (by simp)⟩

/-! ## Feature lemmas for monotone price series -/

theorem pctChange_length : ∀ l : List ℝ, (pctChange l).length = l.length - 1
  | [] => rfl
  | [_] => rfl
  | _ :: b :: t => by
      rw [pctChange]
      simp only [List.length_cons]
      rw [pctChange_length (b :: t)]
      simp

theorem pctChange_pos : ∀ l : List ℝ, l.Pairwise (· < ·) → (∀ x ∈ l, 0 < x) →
    ∀ y ∈ pctChange l, 0 < y
  | [], _, _, _, hy => by cases hy
  | [_], _, _, _, hy => by cases hy
  | a :: b :: t, hp, hpos, y, hy => by
      rw [pctChange] at hy
      rcases List.mem_cons.mp hy with rfl | hyt
      · have ha : 0 < a := hpos a (List.mem_cons_self a _)
        have hab : a < b :=
          (List.pairwise_cons.mp hp).1 b (List.mem_cons_self b _)
        have h1 : 1 < b / a := (one_lt_div ha).mpr hab
        linarith
      · exact pctChange_pos (b :: t) hp.of_cons
          (fun x hx => hpos x (List.mem_cons_of_mem a hx)) y hyt

theorem pctChange_neg : ∀ l : List ℝ, l.Pairwise (· > ·) → (∀ x ∈ l, 0 < x) →
    ∀ y ∈ pctChange l, -1 < y ∧ y < 0
  | [], _, _, _, hy => by cases hy
  | [_], _, _, _, hy => by cases hy
  | a :: b :: t, hp, hpos, y, hy => by
      rw [pctChange] at hy
      rcases List.mem_cons.mp hy with rfl | hyt
      · have ha : 0 < a := hpos a (List.mem_cons_self a _)
        have hb : 0 < b := hpos b (List.mem_cons_of_mem a (List.mem_cons_self b _))
        have hab : b < a :=
          (List.pairwise_cons.mp hp).1 b (List.mem_cons_self b _)
        have h1 : b / a < 1 := (div_lt_one ha).mpr hab
        have h0 : 0 < b / a := div_pos hb ha
        exact ⟨by linarith, by linarith⟩
      · exact pctChange_neg (b :: t) hp.of_cons
          (fun x hx => hpos x (List.mem_cons_of_mem a hx)) y hyt

theorem mul_length_lt_sum (c : ℝ) : ∀ l : List ℝ, (∀ x ∈ l, c < x) → l ≠ [] →
    c * l.length < l.sum
  | [], _, hne => absurd rfl hne
  | a :: t, h, _ => by
      have ha : c < a := h a (List.mem_cons_self a t)
      cases t with
      | nil => simpa using ha
      | cons b u =>
          have ht := mul_length_lt_sum c (b :: u)
            (fun x hx => h x (List.mem_cons_of_mem a hx)) (by simp)
          simp only [List.sum_cons, List.length_cons] at ht ⊢
          push_cast
          push_cast at ht
          nlinarith

theorem sum_lt_mul_length (c : ℝ) : ∀ l : List ℝ, (∀ x ∈ l, x < c) → l ≠ [] →
    l.sum < c * l.length
  | [], _, hne => absurd rfl hne
  | a :: t, h, _ => by
      have ha : a < c := h a (List.mem_cons_self a t)
      cases t with
      | nil => simpa using ha
      | cons b u =>
          have ht := sum_lt_mul_length c (b :: u)
            (fun x hx => h x (List.mem_cons_of_mem a hx)) (by simp)
          simp only [List.sum_cons, List.length_cons] at ht ⊢
          push_cast
          push_cast at ht
          nlinarith

theorem lt_meanL {l : List ℝ} {c : ℝ} (h : ∀ x ∈ l, c < x) (hne : l ≠ []) :
    c < meanL l := by
  have hn : 0 < (l.length : ℝ) := by
    have : 0 < l.length := List.length_pos.mpr hne
    exact_mod_cast this
  unfold meanL
  rw [lt_div_iff₀ hn]
  exact mul_length_lt_sum c l h hne

theorem meanL_lt {l : List ℝ} {c : ℝ} (h : ∀ x ∈ l, x < c) (hne : l ≠ []) :
    meanL l < c := by
  have hn : 0 < (l.length : ℝ) := by
    have : 0 < l.length := List.length_pos.mpr hne
    exact_mod_cast this
  unfold meanL
  rw [div_lt_iff₀ hn]
  exact sum_lt_mul_length c l h hne

theorem pctChange_ne_nil {l : List ℝ} (hl : 2 ≤ l.length) : pctChange l ≠ [] := by
  have := pctChange_length l
  intro hc
  rw [hc] at this
  simp at this
  omega

/-- For a series with at least three points the NaN-aware volatility is the
    real number the pipeline computes: the 0/0 convention of stdL is never
    exercised. -/
theorem volatilityN_eq {prices : List ℝ} (h : 3 ≤ prices.length) :
    volatilityN prices = some (volatility prices) := by
  unfold volatilityN volatility stdN
  rw [if_neg (by rw [pctChange_length]; omega)]
  rfl

/-- For a series with at least two points the NaN-aware annual return is the
    real number the pipeline computes. -/
theorem annualReturnN_eq {prices : List ℝ} (h : 2 ≤ prices.length) :
    annualReturnN prices = some (annualReturn prices) := by
  unfold annualReturnN annualReturn meanN
  rw [if_neg (by simpa using pctChange_ne_nil h)]
  rfl

/-- A strictly increasing positive series has a strictly positive annualized
    return. -/
theorem annualReturn_pos {l : List ℝ} (hp : l.Pairwise (· < ·))
    (hpos : ∀ x ∈ l, 0 < x) (hl : 2 ≤ l.length) : 0 < annualReturn l := by
  have hm : 0 < meanL (pctChange l) :=
    lt_meanL (pctChange_pos l hp hpos) (pctChange_ne_nil hl)
  have : (1 : ℝ) < (1 + meanL (pctChange l)) ^ (252 : ℕ) :=
    one_lt_pow₀ (by linarith) (by norm_num)
  unfold annualReturn
  linarith

/-- A strictly decreasing positive series has a strictly negative annualized
    return. -/
theorem annualReturn_neg {l : List ℝ} (hp : l.Pairwise (· > ·))
    (hpos : ∀ x ∈ l, 0 < x) (hl : 2 ≤ l.length) : annualReturn l < 0 := by
  have hbounds := pctChange_neg l hp hpos
  have hne := pctChange_ne_nil hl
  have hm1 : -1 < meanL (pctChange l) :=
    lt_meanL (fun x hx => (hbounds x hx).1) hne
  have hm0 : meanL (pctChange l) < 0 :=
    meanL_lt (fun x hx => (hbounds x hx).2) hne
  have : (1 + meanL (pctChange l)) ^ (252 : ℕ) < 1 :=
    pow_lt_one₀ (by linarith) (by linarith) (by norm_num)
  unfold annualReturn
  linarith

theorem map_max_of_le {a : ℝ} : ∀ t : List ℝ, (∀ x ∈ t, a ≤ x) →
    t.map (fun x => max a x) = t
  | [], _ => rfl
  | b :: u, h => by
      rw [List.map_cons, max_eq_right (h b (List.mem_cons_self b u)),
        map_max_of_le u (fun x hx => h x (List.mem_cons_of_mem b hx))]

/-- The running maximum of a strictly increasing series is the series itself. -/
theorem cummax_of_increasing : ∀ l : List ℝ, l.Pairwise (· < ·) → cummax l = l
  | [], _ => rfl
  | a :: t, hp => by
      rw [cummax, cummax_of_increasing t hp.of_cons,
        map_max_of_le t (fun x hx => ((List.pairwise_cons.mp hp).1 x hx).le)]

theorem foldl_min_of_all_eq {c : ℝ} : ∀ l : List ℝ, (∀ x ∈ l, x = c) →
    l.foldl min c = c
  | [], _ => rfl
  | b :: u, h => by
      rw [List.foldl_cons, h b (List.mem_cons_self b u), min_self,
        foldl_min_of_all_eq u (fun x hx => h x (List.mem_cons_of_mem b hx))]

theorem listMin_of_all_eq {c : ℝ} {l : List ℝ} (hne : l ≠ []) (h : ∀ x ∈ l, x = c) :
    listMin l = c := by
  cases l with
  | nil => exact absurd rfl hne
  | cons a t =>
      unfold listMin
      rw [h a (List.mem_cons_self a t)]
      exact foldl_min_of_all_eq t (fun x hx => h x (List.mem_cons_of_mem a hx))

/-- A strictly increasing positive series never dips below its running peak:
    max drawdown 0. -/
theorem maxDrawdown_of_increasing {l : List ℝ} (hp : l.Pairwise (· < ·))
    (hpos : ∀ x ∈ l, 0 < x) (hne : l ≠ []) : maxDrawdown l = 0 := by
  unfold maxDrawdown
  rw [cummax_of_increasing l hp, List.zipWith_same]
  refine listMin_of_all_eq ?_ ?_
  · simp [hne]
  · intro x hx
    rcases List.mem_map.mp hx with ⟨a, ha, rfl⟩
    rw [div_self (ne_of_gt (hpos a ha))]
    ring

/-- A strictly decreasing positive series of length at least 2 has a strictly
    negative max drawdown. -/
theorem maxDrawdown_of_decreasing {a b : ℝ} {t : List ℝ}
    (hab : b < a) (ha : 0 < a) :
    maxDrawdown (a :: b :: t) < 0 := by
  unfold maxDrawdown
  have hcm : cummax (a :: b :: t)
      = a :: a :: ((cummax t).map (fun x => max b x)).map (fun x => max a x) := by
    rw [cummax, cummax]
    simp [max_eq_left hab.le]
  rw [hcm]
  have hmem : b / a - 1 ∈
      List.zipWith (fun p m => p / m - 1) (a :: b :: t)
        (a :: a :: ((cummax t).map (fun x => max b x)).map (fun x => max a x)) := by
    rw [List.zipWith_cons_cons, List.zipWith_cons_cons]
    exact List.mem_cons_of_mem _ (List.mem_cons_self _ _)
  have hle := listMin_le_of_mem hmem
  have hlt : b / a < 1 := (div_lt_one ha).mpr hab
  linarith

theorem volatility_nonneg (l : List ℝ) : 0 ≤ volatility l :=
  mul_nonneg (Real.sqrt_nonneg _) (Real.sqrt_nonneg _)

/-! ## Score comparison on two-instrument inputs -/

/-- Every risk string selects one of the three configured weight vectors
    (unrecognized strings select the Moderate vector). -/
theorem weightsFor_cases (risk : String) :
    weightsFor risk = ⟨0.2, 0.4, 0.3, 0.1⟩ ∨ weightsFor risk = ⟨0.3, 0.3, 0.3, 0.1⟩ ∨
      weightsFor risk = ⟨0.4, 0.2, 0.3, 0.1⟩ := by
  unfold weightsFor
  split_ifs
  · exact Or.inl rfl
  · exact Or.inr (Or.inl rfl)
  · exact Or.inr (Or.inr rfl)
  · exact Or.inr (Or.inl rfl)

/-- Two-instrument score comparison: if the first instrument strictly beats the
    second on annualized return and on max drawdown and its volatility is not
    larger, its score is strictly higher under every configured weight
    vector.  (The drawdown inversion hands the drawdown weight to the second
    instrument; the hypotheses still leave the first a positive margin.) -/
theorem score_pair_lt (w : RiskWeights)
    (hwc : w = ⟨0.2, 0.4, 0.3, 0.1⟩ ∨ w = ⟨0.3, 0.3, 0.3, 0.1⟩ ∨
      w = ⟨0.4, 0.2, 0.3, 0.1⟩)
    (A B : String) (pa pb : List ℝ)
    (hr : annualReturn pb < annualReturn pa)
    (hdd : maxDrawdown pb < maxDrawdown pa)
    (hvol : volatility pa ≤ volatility pb) :
    score [(A, pa), (B, pb)] w (B, pb) < score [(A, pa), (B, pb)] w (A, pa) := by
  have hsA : score [(A, pa), (B, pb)] w (A, pa)
      = w.wret * minmaxScale [annualReturn pa, annualReturn pb] (annualReturn pa)
      + w.wvol * (1 - minmaxScale [volatility pa, volatility pb] (volatility pa))
      + w.wsharpe * minmaxScale [sharpe pa, sharpe pb] (sharpe pa)
      + w.wdd * (1 - minmaxScale [maxDrawdown pa, maxDrawdown pb] (maxDrawdown pa)) :=
    rfl
  have hsB : score [(A, pa), (B, pb)] w (B, pb)
      = w.wret * minmaxScale [annualReturn pa, annualReturn pb] (annualReturn pb)
      + w.wvol * (1 - minmaxScale [volatility pa, volatility pb] (volatility pb))
      + w.wsharpe * minmaxScale [sharpe pa, sharpe pb] (sharpe pb)
      + w.wdd * (1 - minmaxScale [maxDrawdown pa, maxDrawdown pb] (maxDrawdown pb)) :=
    rfl
  obtain ⟨hr1, hr0⟩ := minmaxScale_pair_fst_lt hr
  obtain ⟨hd1, hd0⟩ := minmaxScale_pair_fst_lt hdd
  rw [hsA, hsB, hr1, hr0, hd1, hd0]
  rcases eq_or_lt_of_le hvol with hveq | hvlt
  · obtain ⟨hv0, hv0'⟩ := minmaxScale_pair_eq hveq
    rw [hv0, hv0']
    have hsrel : sharpe pb < sharpe pa ∨ sharpe pa = sharpe pb := by
      by_cases hva : 0 < volatility pa
      · left
        have hvb : 0 < volatility pb := by rw [← hveq]; exact hva
        unfold sharpe
        rw [if_pos hva, if_pos hvb, ← hveq]
        have h5 : annualReturn pb - 0.05 < annualReturn pa - 0.05 := by linarith
        have := mul_lt_mul_of_pos_right h5 (inv_pos.mpr hva)
        simpa [div_eq_mul_inv] using this
      · right
        have hva0 : volatility pa = 0 :=
          le_antisymm (not_lt.mp hva) (volatility_nonneg pa)
        have hvb0 : volatility pb = 0 := by rw [← hveq]; exact hva0
        unfold sharpe
        rw [hva0, hvb0, if_neg (lt_irrefl 0), if_neg (lt_irrefl 0)]
    rcases hsrel with hs | hs
    · obtain ⟨hs1, hs0⟩ := minmaxScale_pair_fst_lt hs
      rw [hs1, hs0]
      rcases hwc with rfl | rfl | rfl <;> norm_num
    · obtain ⟨hs0, hs0'⟩ := minmaxScale_pair_eq hs
      rw [hs0, hs0']
      rcases hwc with rfl | rfl | rfl <;> norm_num
  · obtain ⟨hv0, hv1⟩ := minmaxScale_pair_snd_lt hvlt
    rw [hv0, hv1]
    rcases lt_trichotomy (sharpe pb) (sharpe pa) with hs | hs | hs
    · obtain ⟨hs1, hs0⟩ := minmaxScale_pair_fst_lt hs
      rw [hs1, hs0]
      rcases hwc with rfl | rfl | rfl <;> norm_num
    · obtain ⟨hs0, hs0'⟩ := minmaxScale_pair_eq hs.symm
      rw [hs0, hs0']
      rcases hwc with rfl | rfl | rfl <;> norm_num
    · obtain ⟨hs0, hs1⟩ := minmaxScale_pair_snd_lt hs
      rw [hs0, hs1]
      rcases hwc with rfl | rfl | rfl <;> norm_num

/-- Feature-level sufficient condition for the first instrument to rank
    first under any risk profile. -/
theorem rank_pair_of_features (A B : String) (pa pb : List ℝ) (risk : String)
    (ha : pa ≠ []) (hb : pb ≠ [])
    (hr : annualReturn pb < annualReturn pa)
    (hdd : maxDrawdown pb < maxDrawdown pa)
    (hvol : volatility pa ≤ volatility pb) :
    simple_ml_recommendation [(A, pa), (B, pb)] risk = .ok [A, B] := by
  rw [smr_pair A B pa pb risk ha hb]
  have hlt := score_pair_lt (weightsFor risk) (weightsFor_cases risk) A B pa pb
    hr hdd hvol
  have hsc : scored [(A, pa), (B, pb)] (weightsFor risk)
      = [(A, score [(A, pa), (B, pb)] (weightsFor risk) (A, pa)),
         (B, score [(A, pa), (B, pb)] (weightsFor risk) (B, pb))] := rfl
  rw [hsc, rankRows_pair_ge (le_of_lt hlt)]

/-! ## Claim theorems C4: increasing vs decreasing series -/

/-- C4 amended: with positive prices (as the data model requires), at least
    three points per series (so the sample deviation is well-defined), and the
    increasing instrument no more volatile than the decreasing one, the
    increasing instrument ranks first under every risk profile. -/
theorem C4_amended_increasing_ranks_first (A B : String) (pa pb : List ℝ)
    (risk : String) (hla : 3 ≤ pa.length) (hlb : 3 ≤ pb.length)
    (hinc : pa.Pairwise (· < ·)) (hdec : pb.Pairwise (· > ·))
    (hposa : ∀ x ∈ pa, 0 < x) (hposb : ∀ x ∈ pb, 0 < x)
    (hvol : volatility pa ≤ volatility pb) :
    simple_ml_recommendation [(A, pa), (B, pb)] risk = .ok [A, B] := by
  have ha : pa ≠ [] := by intro hc; rw [hc] at hla; simp at hla
  have hb : pb ≠ [] := by intro hc; rw [hc] at hlb; simp at hlb
  have hr : annualReturn pb < annualReturn pa :=
    lt_trans (annualReturn_neg hdec hposb (by omega))
      (annualReturn_pos hinc hposa (by omega))
  have hdd : maxDrawdown pb < maxDrawdown pa := by
    rw [maxDrawdown_of_increasing hinc hposa ha]
    rcases pb with _ | ⟨x, pb'⟩
    · exact absurd rfl hb
    rcases pb' with _ | ⟨y, t⟩
    · simp at hlb
    · have hxy : y < x := (List.pairwise_cons.mp hdec).1 y (List.mem_cons_self y t)
      have hx : 0 < x := hposb x (List.mem_cons_self x _)
      exact maxDrawdown_of_decreasing hxy hx
  exact rank_pair_of_features A B pa pb risk ha hb hr hdd hvol

theorem meanL_pair (r : ℝ) : meanL [r, r] = r := by
  unfold meanL
  simp only [List.sum_cons, List.sum_nil, List.length_cons, List.length_nil]
  push_cast
  ring

theorem stdL_pair (r : ℝ) : stdL [r, r] = 0 := by
  unfold stdL
  rw [meanL_pair]
  have h : (([r, r].map (fun x => (x - r) ^ 2)).sum
      / ((([r, r].length - 1 : ℕ)) : ℝ)) = 0 := by
    norm_num
  rw [h, Real.sqrt_zero]

/-- A series whose two consecutive returns coincide has zero sample deviation,
    hence zero volatility. -/
theorem volatility_pair_returns {l : List ℝ} {r : ℝ} (h : pctChange l = [r, r]) :
    volatility l = 0 := by
  unfold volatility
  rw [h, stdL_pair, zero_mul]

/-- Witness for the amended C4 on [1, 2, 4] (zero-volatility increasing) vs
    [100, 50, 25] (zero-volatility decreasing), Moderate profile. -/
theorem C4_amended_witness :
    (3 ≤ ([1, 2, 4] : List ℝ).length ∧ 3 ≤ ([100, 50, 25] : List ℝ).length ∧
     ([1, 2, 4] : List ℝ).Pairwise (· < ·) ∧
     ([100, 50, 25] : List ℝ).Pairwise (· > ·) ∧
     volatility [1, 2, 4] ≤ volatility [100, 50, 25]) ∧
    simple_ml_recommendation [("A", [1, 2, 4]), ("B", [100, 50, 25])] "Moderate"
      = .ok ["A", "B"] := by
  have h1 : pctChange [(1 : ℝ), 2, 4] = [1, 1] := by norm_num [pctChange]
  have h2 : pctChange [(100 : ℝ), 50, 25] = [-(1/2), -(1/2)] := by
    norm_num [pctChange]
  have hv1 : volatility [(1 : ℝ), 2, 4] = 0 := volatility_pair_returns h1
  have hv2 : volatility [(100 : ℝ), 50, 25] = 0 := volatility_pair_returns h2
  have hvol : volatility [(1 : ℝ), 2, 4] ≤ volatility [(100 : ℝ), 50, 25] := by
    rw [hv1, hv2]
  refine ⟨⟨by norm_num, by norm_num, by norm_num [List.pairwise_cons],
    by norm_num [List.pairwise_cons], hvol⟩, ?_⟩
  apply C4_amended_increasing_ranks_first "A" "B" [1, 2, 4] [100, 50, 25]
    "Moderate" (by norm_num) (by norm_num) (by norm_num [List.pairwise_cons])
    (by norm_num [List.pairwise_cons]) ?_ ?_ hvol
  · intro x hx
    simp at hx
    rcases hx with rfl | rfl | rfl <;> norm_num
  · intro x hx
    simp at hx
    rcases hx with rfl | rfl | rfl <;> norm_num

/-- Bernoulli-style upper bound (1 + x) ^ n ≤ 1 / (1 - n x) for small x. -/
theorem one_add_pow_le_inv_one_sub {x : ℝ} (n : ℕ) (h0 : 0 ≤ x) (hx1 : x ≤ 1)
    (h1 : (n : ℝ) * x < 1) : (1 + x) ^ n ≤ 1 / (1 - (n : ℝ) * x) := by
  have hden : 0 < 1 - (n : ℝ) * x := by linarith
  have hb : (1 : ℝ) - (n : ℝ) * x ≤ (1 - x) ^ n := by
    have h := one_add_mul_le_pow (a := -x) (by linarith) n
    have he : (1 : ℝ) + n * -x = 1 - n * x := by ring
    rw [he] at h
    calc (1 : ℝ) - n * x ≤ (1 + -x) ^ n := h
    _ = (1 - x) ^ n := by ring_nf
  have hprod : (1 + x) ^ n * (1 - x) ^ n ≤ 1 := by
    rw [← mul_pow]
    have h2 : (1 + x) * (1 - x) = 1 - x ^ 2 := by ring
    rw [h2]
    exact pow_le_one₀ (by nlinarith) (by nlinarith)
  rw [le_div_iff₀ hden]
  calc (1 + x) ^ n * (1 - (n : ℝ) * x) ≤ (1 + x) ^ n * (1 - x) ^ n :=
        mul_le_mul_of_nonneg_left hb (pow_nonneg (by linarith) n)
  _ ≤ 1 := hprod

/-- The counterexample input: a gently increasing series (positive but
    sub-risk-free annualized return, nonzero deviation) against a halving
    series (zero deviation).  The increasing instrument scores only the
    return weight; the decreasing one collects volatility, sharpe and
    drawdown weights, so it ranks first under every profile. -/
theorem c4cex_rank (risk : String) :
    simple_ml_recommendation
      [("INC", [40000, 40001, 40003]), ("DEC", [100, 50, 25])] risk
      = .ok ["DEC", "INC"] := by
  have hpcI : pctChange [(40000 : ℝ), 40001, 40003] = [1/40000, 2/40001] := by
    norm_num [pctChange]
  have hpcD : pctChange [(100 : ℝ), 50, 25] = [-(1/2), -(1/2)] := by
    norm_num [pctChange]
  have hmI : meanL [(1 : ℝ)/40000, 2/40001] = 120001/3200080000 := by
    unfold meanL
    norm_num
  have haI : annualReturn [(40000 : ℝ), 40001, 40003]
      = (1 + (120001 : ℝ)/3200080000) ^ (252 : ℕ) - 1 := by
    unfold annualReturn
    rw [hpcI, hmI]
  have haIpos : 0 < annualReturn [(40000 : ℝ), 40001, 40003] := by
    rw [haI]
    have h : (1 : ℝ) < (1 + 120001/3200080000) ^ (252 : ℕ) :=
      one_lt_pow₀ (by norm_num) (by norm_num)
    linarith
  have haIlt : annualReturn [(40000 : ℝ), 40001, 40003] < 1/20 := by
    rw [haI]
    have hber := one_add_pow_le_inv_one_sub (x := (120001 : ℝ)/3200080000) 252
      (by norm_num) (by norm_num) (by norm_num)
    have hlt : (1 : ℝ) / (1 - ((252 : ℕ) : ℝ) * ((120001 : ℝ)/3200080000))
        < 21/20 := by norm_num
    linarith
  have hstdI : 0 < stdL [(1 : ℝ)/40000, 2/40001] := by
    unfold stdL
    apply Real.sqrt_pos.mpr
    rw [hmI]
    norm_num
  have hvolI : 0 < volatility [(40000 : ℝ), 40001, 40003] := by
    unfold volatility
    rw [hpcI]
    exact mul_pos hstdI (Real.sqrt_pos.mpr (by norm_num))
  have hvolD : volatility [(100 : ℝ), 50, 25] = 0 := volatility_pair_returns hpcD
  have hshI : sharpe [(40000 : ℝ), 40001, 40003] < 0 := by
    unfold sharpe
    rw [if_pos hvolI]
    apply div_neg_of_neg_of_pos _ hvolI
    norm_num
    linarith
  have hshD : sharpe [(100 : ℝ), 50, 25] = 0 := by
    unfold sharpe
    rw [hvolD, if_neg (lt_irrefl 0)]
  have harD : annualReturn [(100 : ℝ), 50, 25] < 0 := by
    apply annualReturn_neg
    · norm_num [List.pairwise_cons]
    · intro x hx
      simp at hx
      rcases hx with rfl | rfl | rfl <;> norm_num
    · norm_num
  have hddI : maxDrawdown [(40000 : ℝ), 40001, 40003] = 0 := by
    apply maxDrawdown_of_increasing
    · norm_num [List.pairwise_cons]
    · intro x hx
      simp at hx
      rcases hx with rfl | rfl | rfl <;> norm_num
    · simp
  have hddD : maxDrawdown [(100 : ℝ), 50, 25] < 0 :=
    maxDrawdown_of_decreasing (by norm_num) (by norm_num)
  rw [smr_pair "INC" "DEC" [40000, 40001, 40003] [100, 50, 25] risk
    (by simp) (by simp)]
  have hsI : score [("INC", [(40000 : ℝ), 40001, 40003]), ("DEC", [(100 : ℝ), 50, 25])]
      (weightsFor risk) ("INC", [(40000 : ℝ), 40001, 40003])
      = (weightsFor risk).wret * minmaxScale
          [annualReturn [(40000 : ℝ), 40001, 40003], annualReturn [(100 : ℝ), 50, 25]]
          (annualReturn [(40000 : ℝ), 40001, 40003])
      + (weightsFor risk).wvol * (1 - minmaxScale
          [volatility [(40000 : ℝ), 40001, 40003], volatility [(100 : ℝ), 50, 25]]
          (volatility [(40000 : ℝ), 40001, 40003]))
      + (weightsFor risk).wsharpe * minmaxScale
          [sharpe [(40000 : ℝ), 40001, 40003], sharpe [(100 : ℝ), 50, 25]]
          (sharpe [(40000 : ℝ), 40001, 40003])
      + (weightsFor risk).wdd * (1 - minmaxScale
          [maxDrawdown [(40000 : ℝ), 40001, 40003], maxDrawdown [(100 : ℝ), 50, 25]]
          (maxDrawdown [(40000 : ℝ), 40001, 40003])) := rfl
  have hsD : score [("INC", [(40000 : ℝ), 40001, 40003]), ("DEC", [(100 : ℝ), 50, 25])]
      (weightsFor risk) ("DEC", [(100 : ℝ), 50, 25])
      = (weightsFor risk).wret * minmaxScale
          [annualReturn [(40000 : ℝ), 40001, 40003], annualReturn [(100 : ℝ), 50, 25]]
          (annualReturn [(100 : ℝ), 50, 25])
      + (weightsFor risk).wvol * (1 - minmaxScale
          [volatility [(40000 : ℝ), 40001, 40003], volatility [(100 : ℝ), 50, 25]]
          (volatility [(100 : ℝ), 50, 25]))
      + (weightsFor risk).wsharpe * minmaxScale
          [sharpe [(40000 : ℝ), 40001, 40003], sharpe [(100 : ℝ), 50, 25]]
          (sharpe [(100 : ℝ), 50, 25])
      + (weightsFor risk).wdd * (1 - minmaxScale
          [maxDrawdown [(40000 : ℝ), 40001, 40003], maxDrawdown [(100 : ℝ), 50, 25]]
          (maxDrawdown [(100 : ℝ), 50, 25])) := rfl
  obtain ⟨hr1, hr0⟩ := minmaxScale_pair_fst_lt (lt_trans harD haIpos)
  obtain ⟨hv1, hv0⟩ := minmaxScale_pair_fst_lt
    (show volatility [(100 : ℝ), 50, 25] < volatility [(40000 : ℝ), 40001, 40003] by
      rw [hvolD]; exact hvolI)
  obtain ⟨hs0, hs1⟩ := minmaxScale_pair_snd_lt
    (show sharpe [(40000 : ℝ), 40001, 40003] < sharpe [(100 : ℝ), 50, 25] by
      rw [hshD]; exact hshI)
  obtain ⟨hd1, hd0⟩ := minmaxScale_pair_fst_lt
    (show maxDrawdown [(100 : ℝ), 50, 25] < maxDrawdown [(40000 : ℝ), 40001, 40003] by
      rw [hddI]; exact hddD)
  have hlt : score [("INC", [(40000 : ℝ), 40001, 40003]), ("DEC", [(100 : ℝ), 50, 25])]
        (weightsFor risk) ("INC", [(40000 : ℝ), 40001, 40003])
      < score [("INC", [(40000 : ℝ), 40001, 40003]), ("DEC", [(100 : ℝ), 50, 25])]
        (weightsFor risk) ("DEC", [(100 : ℝ), 50, 25]) := by
    rw [hsI, hsD, hr1, hr0, hv1, hv0, hs0, hs1, hd1, hd0]
    rcases weightsFor_cases risk with hwc | hwc | hwc <;> rw [hwc] <;> norm_num
  have hsc : scored
      [("INC", [(40000 : ℝ), 40001, 40003]), ("DEC", [(100 : ℝ), 50, 25])]
      (weightsFor risk)
      = [("INC", score [("INC", [(40000 : ℝ), 40001, 40003]),
            ("DEC", [(100 : ℝ), 50, 25])] (weightsFor risk)
            ("INC", [(40000 : ℝ), 40001, 40003])),
         ("DEC", score [("INC", [(40000 : ℝ), 40001, 40003]),
            ("DEC", [(100 : ℝ), 50, 25])] (weightsFor risk)
            ("DEC", [(100 : ℝ), 50, 25]))] := rfl
  rw [hsc, rankRows_pair_lt hlt]

/-- C4 counterexample: a strictly increasing and a strictly decreasing series
    (positive prices, three points each) for which the decreasing instrument
    ranks first under all three risk profiles, refuting the claim. -/
theorem C4_counterexample :
    ([40000, 40001, 40003] : List ℝ).Pairwise (· < ·) ∧
    ([100, 50, 25] : List ℝ).Pairwise (· > ·) ∧
    2 ≤ ([40000, 40001, 40003] : List ℝ).length ∧
    2 ≤ ([100, 50, 25] : List ℝ).length ∧
    simple_ml_recommendation
      [("INC", [40000, 40001, 40003]), ("DEC", [100, 50, 25])] "Conservative"
      = .ok ["DEC", "INC"] ∧
    simple_ml_recommendation
      [("INC", [40000, 40001, 40003]), ("DEC", [100, 50, 25])] "Moderate"
      = .ok ["DEC", "INC"] ∧
    simple_ml_recommendation
      [("INC", [40000, 40001, 40003]), ("DEC", [100, 50, 25])] "Aggressive"
      = .ok ["DEC", "INC"] ∧
    (Except.ok ["DEC", "INC"] : Except String (List String)) ≠ .ok ["INC", "DEC"] :=
  ⟨by norm_num [List.pairwise_cons], by norm_num [List.pairwise_cons],
   by norm_num, by norm_num,
   c4cex_rank "Conservative", c4cex_rank "Moderate", c4cex_rank "Aggressive",
   by simp⟩

/-! ## Claim theorems for the static recommendation tables -/

/-- C9: recommend_stocks and recommend_mutual_funds each return exactly 5
    tickers determined by the risk profile alone; the goal type and amount
    arguments (and the goal-adjustment tables they feed) never influence the
    output. -/
theorem C9_goal_and_amount_independent (risk goal1 goal2 : String) (amt1 amt2 : ℝ) :
    recommend_stocks risk goal1 amt1 = recommend_stocks risk goal2 amt2 ∧
    (recommend_stocks risk goal1 amt1).length = 5 ∧
    recommend_mutual_funds risk goal1 amt1 = recommend_mutual_funds risk goal2 amt2 ∧
    (recommend_mutual_funds risk goal1 amt1).length = 5 := by
  refine ⟨rfl, ?_, rfl, ?_⟩
  · by_cases h : dictHas stock_universe risk = true
    · have h' : "Conservative" = risk ∨ "Moderate" = risk ∨ "Aggressive" = risk := by
        simpa [dictHas, stock_universe] using h
      rcases h' with rfl | rfl | rfl <;> rfl
    · unfold recommend_stocks
      rw [if_neg h]
      rfl
  · by_cases h : dictHas mf_universe risk = true
    · have h' : "Conservative" = risk ∨ "Moderate" = risk ∨ "Aggressive" = risk := by
        simpa [dictHas, mf_universe] using h
      rcases h' with rfl | rfl | rfl <;> rfl
    · unfold recommend_mutual_funds
      rw [if_neg h]
      rfl

/-- C10: every risk-profile string outside Conservative / Moderate / Aggressive
    is treated exactly as "Moderate" by all four profile-driven functions. -/
theorem C10_unknown_profile_defaults_to_moderate (risk : String)
    (h : ¬(risk = "Conservative" ∨ risk = "Moderate" ∨ risk = "Aggressive")) :
    (∀ amt : ℝ, calculate_asset_allocation risk amt
        = calculate_asset_allocation "Moderate" amt) ∧
    (∀ (g : String) (amt : ℝ), recommend_stocks risk g amt
        = recommend_stocks "Moderate" g amt) ∧
    (∀ (g : String) (amt : ℝ), recommend_mutual_funds risk g amt
        = recommend_mutual_funds "Moderate" g amt) ∧
    (∀ hist : List (String × List ℝ),
        simple_ml_recommendation hist risk = simple_ml_recommendation hist "Moderate") := by
  push_neg at h
  obtain ⟨h1, h2, h3⟩ := h
  have hsym : ¬"Conservative" = risk ∧ ¬"Moderate" = risk ∧ ¬"Aggressive" = risk :=
    ⟨fun hc => h1 hc.symm, fun hc => h2 hc.symm, fun hc => h3 hc.symm⟩
  have hs : dictHas stock_universe risk = false := by
    simp [dictHas, stock_universe, hsym.1, hsym.2.1, hsym.2.2]
  have hm : dictHas mf_universe risk = false := by
    simp [dictHas, mf_universe, hsym.1, hsym.2.1, hsym.2.2]
  refine ⟨fun amt => ?_, fun g amt => ?_, fun g amt => ?_, fun hist => ?_⟩
  · unfold calculate_asset_allocation
    rw [if_neg h1, if_neg h2, if_neg h3]
    rfl
  · unfold recommend_stocks
    rw [hs]
    simp
  · unfold recommend_mutual_funds
    rw [hm]
    simp
  · have hw : weightsFor risk = weightsFor "Moderate" := by
      unfold weightsFor
      rw [if_neg h1, if_neg h2, if_neg h3]
      rfl
    unfold simple_ml_recommendation
    rw [hw]

/-- Witness for C10 at the unrecognized profile "Balanced". -/
theorem C10_unknown_profile_witness :
    (¬("Balanced" = "Conservative" ∨ "Balanced" = "Moderate"
        ∨ "Balanced" = "Aggressive")) ∧
    ((∀ amt : ℝ, calculate_asset_allocation "Balanced" amt
        = calculate_asset_allocation "Moderate" amt) ∧
     (∀ (g : String) (amt : ℝ), recommend_stocks "Balanced" g amt
        = recommend_stocks "Moderate" g amt) ∧
     (∀ (g : String) (amt : ℝ), recommend_mutual_funds "Balanced" g amt
        = recommend_mutual_funds "Moderate" g amt) ∧
     (∀ hist : List (String × List ℝ),
        simple_ml_recommendation hist "Balanced"
          = simple_ml_recommendation hist "Moderate")) :=
  ⟨by decide, C10_unknown_profile_defaults_to_moderate "Balanced" (by decide)⟩

/-- C1: the empty mapping does return an empty ranking, but a mapping that
    mixes a non-empty and an empty series makes simple_ml_recommendation fail
    with pandas' ragged-DataFrame ValueError instead of excluding the empty
    instrument: the ticker column keeps every key while the feature columns
    only keep instruments whose series is non-empty. -/
theorem C1_empty_series_aborts_batch :
    simple_ml_recommendation [] "Moderate" = .ok [] ∧
    simple_ml_recommendation [("A", [1, 2]), ("B", [])] "Moderate"
      = .error "All arrays must be of the same length" := by
  constructor
  · rfl
  · rfl

/-- Witness for C3 at F = 1000000, r = 0.12, y = 5. -/
theorem C3_solver_projector_consistency_witness :
    ((0 : ℝ) < 1000000 ∧ (0 : ℝ) < 0.12 ∧ (0 : ℤ) < 5) ∧
      (0 < calculate_monthly_investment 1000000 0.12 5 ∧
        (calculate_investment_growth 0 (calculate_monthly_investment 1000000 0.12 5)
            0.12 5).getLastD 0 = 1000000) :=
  ⟨⟨by norm_num, by norm_num, by norm_num⟩,
    C3_solver_projector_consistency 1000000 0.12 5 (by norm_num) (by norm_num)
      (by norm_num)⟩

end

end InvestmentReco
